import Mathlib

/-!
Verification development for the HCS multi-backend reconciliation core.

The Python source is shallowly embedded: bytes are `List Nat` (each < 256),
`hashlib.sha256` / `hashlib.sha1` are implemented bit-for-bit over `Nat`
words reduced mod 2^32, `uuid.uuid5` is implemented on top of SHA-1, and the
SQLAlchemy-backed repositories are modelled as explicit list-valued state
with an explicit committed-snapshot trace for visibility reasoning.
-/

set_option maxRecDepth 100000
set_option maxHeartbeats 2000000

namespace HCS

/-- Word modulus of SHA-256 and SHA-1 arithmetic, 2^32. -/
def M32 : Nat := 4294967296

/-- All-ones 32-bit mask, used to model bitwise complement on 32-bit words. -/
def mask32 : Nat := 4294967295

/-- Rotate a 32-bit word left by n bits. -/
def rotl32 (n x : Nat) : Nat := ((x <<< n) % M32) ||| (x >>> (32 - n))

/-- Rotate a 32-bit word right by n bits. -/
def rotr32 (n x : Nat) : Nat := (x >>> n) ||| ((x <<< (32 - n)) % M32)

/-- Big-endian 4-byte encoding of a 32-bit word. -/
def be32 (n : Nat) : List Nat :=
  [(n >>> 24) % 256, (n >>> 16) % 256, (n >>> 8) % 256, n % 256]

/-- Big-endian 8-byte encoding of a 64-bit value. -/
def be64 (n : Nat) : List Nat :=
  [(n >>> 56) % 256, (n >>> 48) % 256, (n >>> 40) % 256, (n >>> 32) % 256,
   (n >>> 24) % 256, (n >>> 16) % 256, (n >>> 8) % 256, n % 256]

/-- Big-endian word from a list of bytes. -/
def wordOfBytes (bs : List Nat) : Nat := bs.foldl (fun a b => a * 256 + b) 0

/-- Fuelled worker for chunkBy; structural recursion on the fuel keeps the
definition kernel-reducible. With fuel at least the list length and n not
zero the fuel never runs out. -/
def chunkByGo (n : Nat) : Nat → List α → List (List α)
  | _, [] => []
  | 0, _ :: _ => []
  | fuel + 1, a :: l => (a :: l).take n :: chunkByGo n fuel ((a :: l).drop n)

/-- Split a list into consecutive chunks of n elements each (the last chunk
may be shorter). -/
def chunkBy (n : Nat) (l : List α) : List (List α) := chunkByGo n l.length l

/-- Lowercase hex digit for a value < 16. -/
def hexChar (n : Nat) : Char := if n < 10 then Char.ofNat (48 + n) else Char.ofNat (87 + n)

/-- Two lowercase hex digits of one byte. -/
def byteToHex (b : Nat) : List Char := [hexChar (b / 16), hexChar (b % 16)]

/-- Lowercase hex characters of a byte list. -/
def hexOfBytes (bs : List Nat) : List Char := (bs.map byteToHex).flatten

/-- Lowercase hex string of a byte list, as hashlib hexdigest produces. -/
def bytesToHex (bs : List Nat) : String := ⟨hexOfBytes bs⟩

/-- Merkle-Damgard padding shared by SHA-256 and SHA-1: append 0x80, zero
bytes up to 56 mod 64, then the 64-bit big-endian bit length. -/
def mdPad (msg : List Nat) : List Nat :=
  let L := msg.length
  let k := (64 - ((L + 9) % 64)) % 64
  msg ++ 0x80 :: (List.replicate k 0 ++ be64 (8 * L))

/-- Eight-word working state of SHA-256. -/
structure Words8 where
  a : Nat
  b : Nat
  c : Nat
  d : Nat
  e : Nat
  f : Nat
  g : Nat
  h : Nat
deriving DecidableEq

/-- SHA-256 round constants. -/
def K256 : List Nat :=
  [1116352408, 1899447441, 3049323471, 3921009573, 961987163, 1508970993,
   2453635748, 2870763221, 3624381080, 310598401, 607225278, 1426881987,
   1925078388, 2162078206, 2614888103, 3248222580, 3835390401, 4022224774,
   264347078, 604807628, 770255983, 1249150122, 1555081692, 1996064986,
   2554220882, 2821834349, 2952996808, 3210313671, 3336571891, 3584528711,
   113926993, 338241895, 666307205, 773529912, 1294757372, 1396182291,
   1695183700, 1986661051, 2177026350, 2456956037, 2730485921, 2820302411,
   3259730800, 3345764771, 3516065817, 3600352804, 4094571909, 275423344,
   430227734, 506948616, 659060556, 883997877, 958139571, 1322822218,
   1537002063, 1747873779, 1955562222, 2024104815, 2227730452, 2361852424,
   2428436474, 2756734187, 3204031479, 3329325298]

/-- SHA-256 small sigma 0. -/
def ssig0 (x : Nat) : Nat := rotr32 7 x ^^^ rotr32 18 x ^^^ (x >>> 3)

/-- SHA-256 small sigma 1. -/
def ssig1 (x : Nat) : Nat := rotr32 17 x ^^^ rotr32 19 x ^^^ (x >>> 10)

/-- SHA-256 big sigma 0. -/
def bsig0 (x : Nat) : Nat := rotr32 2 x ^^^ rotr32 13 x ^^^ rotr32 22 x

/-- SHA-256 big sigma 1. -/
def bsig1 (x : Nat) : Nat := rotr32 6 x ^^^ rotr32 11 x ^^^ rotr32 25 x

/-- Next word of the SHA-256 message schedule, from the words so far. -/
def nextWord256 (ws : List Nat) : Nat :=
  let i := ws.length
  (ws.getD (i - 16) 0 + ssig0 (ws.getD (i - 15) 0) + ws.getD (i - 7) 0 +
    ssig1 (ws.getD (i - 2) 0)) % M32

/-- Extend a word list by n scheduled SHA-256 words. -/
def extendWords256 : Nat → List Nat → List Nat
  | 0, ws => ws
  | n + 1, ws => extendWords256 n (ws ++ [nextWord256 ws])

/-- One SHA-256 compression round; the pair is (scheduled word, constant). -/
def round256 (s : Words8) (wk : Nat × Nat) : Words8 :=
  let ch := (s.e &&& s.f) ^^^ ((mask32 ^^^ s.e) &&& s.g)
  let maj := (s.a &&& s.b) ^^^ (s.a &&& s.c) ^^^ (s.b &&& s.c)
  let t1 := (s.h + bsig1 s.e + ch + wk.2 + wk.1) % M32
  let t2 := (bsig0 s.a + maj) % M32
  ⟨(t1 + t2) % M32, s.a, s.b, s.c, (s.d + t1) % M32, s.e, s.f, s.g⟩

/-- SHA-256 compression of one 64-byte block into the chaining state. -/
def compress256 (H : Words8) (block : List Nat) : Words8 :=
  let ws := extendWords256 48 ((chunkBy 4 block).map wordOfBytes)
  let s := (ws.zip K256).foldl round256 H
  ⟨(H.a + s.a) % M32, (H.b + s.b) % M32, (H.c + s.c) % M32, (H.d + s.d) % M32,
   (H.e + s.e) % M32, (H.f + s.f) % M32, (H.g + s.g) % M32, (H.h + s.h) % M32⟩

/-- SHA-256 digest (32 bytes) of a byte list; models hashlib.sha256(...).digest(). -/
def sha256 (msg : List Nat) : List Nat :=
  let st := (chunkBy 64 (mdPad msg)).foldl compress256
    ⟨1779033703, 3144134277, 1013904242, 2773480762,
     1359893119, 2600822924, 528734635, 1541459225⟩
  be32 st.a ++ be32 st.b ++ be32 st.c ++ be32 st.d ++
    be32 st.e ++ be32 st.f ++ be32 st.g ++ be32 st.h

/-- Hex digest of SHA-256; models hashlib.sha256(...).hexdigest(). -/
def sha256hex (msg : List Nat) : String := bytesToHex (sha256 msg)

/-- Five-word working state of SHA-1. -/
structure Words5 where
  a : Nat
  b : Nat
  c : Nat
  d : Nat
  e : Nat
deriving DecidableEq

/-- Next word of the SHA-1 message schedule, from the words so far. -/
def nextWord1 (ws : List Nat) : Nat :=
  let i := ws.length
  rotl32 1 (ws.getD (i - 3) 0 ^^^ ws.getD (i - 8) 0 ^^^ ws.getD (i - 14) 0 ^^^
    ws.getD (i - 16) 0)

/-- Extend a word list by n scheduled SHA-1 words. -/
def extendWords1 : Nat → List Nat → List Nat
  | 0, ws => ws
  | n + 1, ws => extendWords1 n (ws ++ [nextWord1 ws])

/-- One SHA-1 compression round; the pair is (round index, scheduled word). -/
def round1 (s : Words5) (iw : Nat × Nat) : Words5 :=
  let f :=
    if iw.1 < 20 then (s.b &&& s.c) ||| ((mask32 ^^^ s.b) &&& s.d)
    else if iw.1 < 40 then s.b ^^^ s.c ^^^ s.d
    else if iw.1 < 60 then (s.b &&& s.c) ||| (s.b &&& s.d) ||| (s.c &&& s.d)
    else s.b ^^^ s.c ^^^ s.d
  let k :=
    if iw.1 < 20 then 1518500249
    else if iw.1 < 40 then 1859775393
    else if iw.1 < 60 then 2400959708
    else 3395469782
  ⟨(rotl32 5 s.a + f + s.e + k + iw.2) % M32, s.a, rotl32 30 s.b, s.c, s.d⟩

/-- SHA-1 compression of one 64-byte block into the chaining state. -/
def compress1 (H : Words5) (block : List Nat) : Words5 :=
  let ws := extendWords1 64 ((chunkBy 4 block).map wordOfBytes)
  let s := ws.enum.foldl round1 H
  ⟨(H.a + s.a) % M32, (H.b + s.b) % M32, (H.c + s.c) % M32,
   (H.d + s.d) % M32, (H.e + s.e) % M32⟩

/-- SHA-1 digest (20 bytes) of a byte list; models hashlib.sha1(...).digest(). -/
def sha1 (msg : List Nat) : List Nat :=
  let st := (chunkBy 64 (mdPad msg)).foldl compress1
    ⟨1732584193, 4023233417, 2562383102, 271733878, 3285377520⟩
  be32 st.a ++ be32 st.b ++ be32 st.c ++ be32 st.d ++ be32 st.e

/-- UTF-8 encoding of one scalar value, as Python str.encode produces. -/
def utf8Char (c : Char) : List Nat :=
  let n := c.toNat
  if n < 0x80 then [n]
  else if n < 0x800 then [0xc0 + n / 64, 0x80 + n % 64]
  else if n < 0x10000 then [0xe0 + n / 4096, 0x80 + (n / 64) % 64, 0x80 + n % 64]
  else [0xf0 + n / 262144, 0x80 + (n / 4096) % 64, 0x80 + (n / 64) % 64, 0x80 + n % 64]

/-- UTF-8 bytes of a string, as Python str.encode() produces. -/
def utf8Bytes (s : String) : List Nat := (s.data.map utf8Char).flatten

/-- The 16 bytes of uuid.NAMESPACE_OID (6ba7b812-9dad-11d1-80b4-00c04fd430c8). -/
def NAMESPACE_OID : List Nat :=
  [0x6b, 0xa7, 0xb8, 0x12, 0x9d, 0xad, 0x11, 0xd1,
   0x80, 0xb4, 0x00, 0xc0, 0x4f, 0xd4, 0x30, 0xc8]

/-- Canonical 8-4-4-4-12 dashed lowercase-hex rendering of 16 uuid bytes. -/
def uuidStr (b : List Nat) : String :=
  bytesToHex (b.take 4) ++ "-" ++ bytesToHex ((b.drop 4).take 2) ++ "-" ++
    bytesToHex ((b.drop 6).take 2) ++ "-" ++ bytesToHex ((b.drop 8).take 2) ++
    "-" ++ bytesToHex (b.drop 10)

/-- Models str(uuid.uuid5(ns, name)): SHA-1 of namespace bytes plus the
UTF-8 name, truncated to 16 bytes with version 5 and RFC 4122 variant bits. -/
def uuid5 (ns : List Nat) (name : String) : String :=
  let d0 := (sha1 (ns ++ utf8Bytes name)).take 16
  let d1 := d0.set 6 (d0.getD 6 0 % 16 + 0x50)
  let d2 := d1.set 8 (d1.getD 8 0 % 64 + 0x80)
  uuidStr d2

/-- The stable LogicalFile id of sync_service.run:
str(uuid.uuid5(uuid.NAMESPACE_OID, file_hash)). -/
def uuidFromHash (file_hash : String) : String := uuid5 NAMESPACE_OID file_hash

/-- BLOCK_SIZE = 4 * 1024 * 1024 from both get_file_hash implementations. -/
def BLOCK_SIZE : Nat := 4 * 1024 * 1024

namespace LocalStorageBackend

/-- The while-loop of LocalStorageBackend.get_file_hash: f.read(BLOCK_SIZE)
until the read is empty, appending sha256(chunk).digest() each time. The
fuel (at least the byte count at every call below) keeps the recursion
structural and so kernel-reducible. -/
def hashLoop : Nat → List Nat → List (List Nat) → List (List Nat)
  | _, [], chunk_hashes => chunk_hashes
  | 0, _ :: _, chunk_hashes => chunk_hashes
  | fuel + 1, a :: l, chunk_hashes =>
    hashLoop fuel ((a :: l).drop BLOCK_SIZE) (chunk_hashes ++ [sha256 ((a :: l).take BLOCK_SIZE)])

/-- LocalStorageBackend.get_file_hash on the bytes of the file:
sha256 over the concatenation of the per-chunk digests, hex encoded. -/
def get_file_hash (content : List Nat) : String :=
  bytesToHex (sha256 (hashLoop content.length content []).flatten)

end LocalStorageBackend

namespace FTPSStorageBackend

/-- The while-loop of FTPSStorageBackend.get_file_hash over the downloaded
buffer: buf.read(BLOCK_SIZE) until empty, appending each chunk digest.
Fuelled like the local variant to stay kernel-reducible. -/
def hashLoop : Nat → List Nat → List (List Nat) → List (List Nat)
  | _, [], chunk_hashes => chunk_hashes
  | 0, _ :: _, chunk_hashes => chunk_hashes
  | fuel + 1, a :: l, chunk_hashes =>
    hashLoop fuel ((a :: l).drop BLOCK_SIZE) (chunk_hashes ++ [sha256 ((a :: l).take BLOCK_SIZE)])

/-- FTPSStorageBackend.get_file_hash on the bytes retrieved over RETR. -/
def get_file_hash (content : List Nat) : String :=
  bytesToHex (sha256 (hashLoop content.length content []).flatten)

end FTPSStorageBackend

/-- The canonical two-level content hash as worded by the spec (section 4.2):
split the input into fixed 4 MiB blocks, SHA-256 each block, concatenate the
per-block digests in order, SHA-256 that concatenation and hex-encode. -/
def canonicalContentHash (content : List Nat) : String :=
  bytesToHex (sha256 ((chunkBy BLOCK_SIZE content).map sha256).flatten)

/-- A file observation: the dict appended to entries in
SyncService._collect_entries. size is None or an int; last_modified is an
abstract timestamp (datetime values are never falsy). -/
structure Entry where
  file_hash : String
  path : String
  name : String
  size : Option Nat
  last_modified : Nat
  backend : String
deriving DecidableEq

/-- Lookup in a Python dict modelled as an insertion-ordered association list. -/
def dictFind {α : Type} : List (String × α) → String → Option α
  | [], _ => none
  | p :: m, k => if p.1 = k then some p.2 else dictFind m k

namespace ComparisonService

/-- ComparisonService.compute_hash: a SINGLE-PASS sha256 hexdigest of the
raw bytes (hashlib.sha256(data_bytes).hexdigest()). -/
def compute_hash (data_bytes : List Nat) : String := sha256hex data_bytes

/-- One iteration of the group_by_hash loop:
groups.setdefault(e.file_hash, []).append(e). -/
def groupUpd (groups : List (String × List Entry)) (e : Entry) :
    List (String × List Entry) :=
  if e.file_hash ∈ groups.map Prod.fst then
    groups.map (fun p => if p.1 = e.file_hash then (p.1, p.2 ++ [e]) else p)
  else groups ++ [(e.file_hash, [e])]

/-- ComparisonService.group_by_hash: fold entries into an insertion-ordered
dict from content hash to the list of entries carrying it. -/
def group_by_hash (entries : List Entry) : List (String × List Entry) :=
  entries.foldl groupUpd []

/-- ComparisonService.compute_backup_counts:
{h: max(len(v) - 1, 0) for h, v in groups.items()}. -/
def compute_backup_counts (groups : List (String × List Entry)) :
    List (String × Int) :=
  groups.map (fun p => (p.1, max ((p.2.length : Int) - 1) 0))

end ComparisonService

/-- A row of the files table (models.file.File). -/
structure File where
  id : String
  name : String
  path : String
  size : Option Nat
  last_modified : Nat
  sensitivity : String
  backup_count : Int
  updated_at : Nat
deriving DecidableEq

/-- A row of the file_locations table (models.file_locations.FileLocation). -/
structure FileLocation where
  file_id : String
  location : String
deriving DecidableEq

/-- The visible (committed) database state: both tables. -/
structure Snapshot where
  files : List File
  locations : List FileLocation
deriving DecidableEq

namespace FileRepository

/-- FileRepository.get_or_create applied to the pending files list: add the
row only when no file with that id exists yet. -/
def get_or_create (files : List File) (f : File) : List File :=
  if f.id ∈ files.map File.id then files else files ++ [f]

end FileRepository

/-- Partial metadata dict as the caller of get_file_metadata sees it: the
outer Option is key presence, the inner Option is a Python None value
(DropboxStorageBackend returns present keys whose values may be None). -/
structure MetaDict where
  size : Option (Option Nat) := none
  modified : Option (Option Nat) := none
deriving DecidableEq

/-- A storage backend as SyncService consumes it: its class name plus the
three operations used during collection. Except models a raised exception. -/
structure Backend where
  name : String
  list_files : String → Except Unit (List String)
  get_file_metadata : String → Except Unit MetaDict
  get_file_hash : String → Except Unit String

/-- os.path.basename for forward-slash paths. -/
def basename (path : String) : String := (path.splitOn "/").getLastD ""

namespace SyncService

/-- The listing argument chosen by the type-name dispatch in
_collect_entries: Dropbox gets "/" + base_folder, the others base_folder. -/
def listPath (base_folder : String) (b : Backend) : String :=
  if b.name = "DropboxStorageBackend" then "/" ++ base_folder else base_folder

/-- The body of the per-path loop of _collect_entries. get_file_metadata is
NOT exception-guarded (an exception aborts the whole collection); the hash
call is guarded with the sha256-of-path fallback. -/
def collectPath (now : Nat) (b : Backend) (path : String) : Except Unit Entry :=
  match b.get_file_metadata path with
  | .error e => .error e
  | .ok meta =>
    .ok ⟨(match b.get_file_hash path with
          | .ok h => h
          | .error _ => sha256hex (utf8Bytes path)),
         path, basename path, meta.size.getD (some 0),
         (match meta.modified with
          | some (some t) => t
          | _ => now), b.name⟩

/-- The per-path loop of _collect_entries over the listed paths. -/
def collectPaths (now : Nat) (b : Backend) : List String → Except Unit (List Entry)
  | [] => .ok []
  | p :: ps =>
    match collectPath now b p with
    | .error e => .error e
    | .ok e =>
      match collectPaths now b ps with
      | .error e2 => .error e2
      | .ok rest => .ok (e :: rest)

/-- One backend's contribution to _collect_entries: the listing call is
try/except-guarded, a failure degrades to zero paths. -/
def collectBackend (now : Nat) (base_folder : String) (b : Backend) :
    Except Unit (List Entry) :=
  let paths :=
    match b.list_files (listPath base_folder b) with
    | .ok ps => ps
    | .error _ => []
  collectPaths now b paths

/-- SyncService._collect_entries over the configured backends, in order. -/
def collect_entries (now : Nat) (base_folder : String) :
    List Backend → Except Unit (List Entry)
  | [] => .ok []
  | b :: bs =>
    match collectBackend now base_folder b with
    | .error e => .error e
    | .ok es =>
      match collect_entries now base_folder bs with
      | .error e2 => .error e2
      | .ok rest => .ok (es ++ rest)

/-- Placeholder for items[0] on an empty group; group_by_hash never
produces an empty group, so this value is never read in a real run. -/
def defaultEntry : Entry := ⟨"", "", "", none, 0, ""⟩

/-- The File row built for one hash group, given its sensitivity label:
id is the stable uuid5 of the hash, display fields come from the first
observation, backup_count from backups[file_hash]. -/
def mkFileS (sens : String) (now : Nat) (backups : List (String × Int))
    (file_hash : String) (items : List Entry) : File :=
  let rep := items.headD defaultEntry
  { id := uuidFromHash file_hash, name := rep.name, path := rep.path,
    size := rep.size, last_modified := rep.last_modified, sensitivity := sens,
    backup_count := (dictFind backups file_hash).getD 0, updated_at := now }

/-- The File row built for one hash group with a total classifier. -/
def mkFile (classify : String → String) (now : Nat)
    (backups : List (String × Int)) (file_hash : String) (items : List Entry) :
    File :=
  mkFileS (classify (items.headD defaultEntry).path) now backups file_hash items

/-- The reinsert loop of SyncService.run: for each group, get_or_create the
File row and add one FileLocation per observation of the group. -/
def insertGroups (classify : String → String) (now : Nat)
    (backups : List (String × Int)) :
    List (String × List Entry) → Snapshot → Snapshot
  | [], s => s
  | (h, items) :: gs, s =>
    let f := mkFile classify now backups h items
    insertGroups classify now backups gs
      ⟨FileRepository.get_or_create s.files f,
       s.locations ++ items.map (fun it => ⟨f.id, it.backend⟩)⟩

/-- SyncService.run on collected entries, success path: group, count
backups, wipe both tables, reinsert every group, commit, and return the
number of observations processed. -/
def run (classify : String → String) (now : Nat) (entries : List Entry) :
    Snapshot × Nat :=
  let groups := ComparisonService.group_by_hash entries
  let backups := ComparisonService.compute_backup_counts groups
  (insertGroups classify now backups groups ⟨[], []⟩, entries.length)

/-- The reinsert loop with a classifier that may raise: the error aborts
the loop and the pending (uncommitted) rows are discarded. -/
def insertGroupsE (classify : String → Except Unit String) (now : Nat)
    (backups : List (String × Int)) :
    List (String × List Entry) → Snapshot → Except Unit Snapshot
  | [], s => .ok s
  | (h, items) :: gs, s =>
    match classify (items.headD defaultEntry).path with
    | .error e => .error e
    | .ok sens =>
      insertGroupsE classify now backups gs
        ⟨FileRepository.get_or_create s.files (mkFileS sens now backups h items),
         s.locations ++ items.map (fun it =>
           ⟨(mkFileS sens now backups h items).id, it.backend⟩)⟩

/-- SyncService.run with its committed-snapshot trace. Each delete_all
commits immediately (file_repo first, location_repo second), pending
inserts become visible only at the final commit, and either a raising
classifier or a failing final commit fails the run. The returned list is
the sequence of states a reader can observe, in order. -/
def runSteps (classify : String → Except Unit String) (commitOk : Bool)
    (now : Nat) (init : Snapshot) (entries : List Entry) :
    List Snapshot × Except Unit Nat :=
  let groups := ComparisonService.group_by_hash entries
  let backups := ComparisonService.compute_backup_counts groups
  let s1 : Snapshot := ⟨[], init.locations⟩
  let s2 : Snapshot := ⟨[], []⟩
  match insertGroupsE classify now backups groups ⟨[], []⟩ with
  | .error e => ([init, s1, s2], .error e)
  | .ok s =>
    if commitOk then ([init, s1, s2, s], .ok entries.length)
    else ([init, s1, s2], .error ())

/-- The full pipeline behind POST /sync: collect observations from every
backend, then run the reconciliation on them. -/
def runFull (classify : String → String) (now : Nat) (base_folder : String)
    (backends : List Backend) : Except Unit (Snapshot × Nat) :=
  match collect_entries now base_folder backends with
  | .error e => .error e
  | .ok entries => .ok (run classify now entries)

end SyncService

/-! Basic facts about the hex encoding and digest lengths. -/

theorem hexOfBytes_length (bs : List Nat) : (hexOfBytes bs).length = 2 * bs.length := by
  induction bs with
  | nil => rfl
  | cons b t ih =>
    simp [hexOfBytes, byteToHex] at ih ⊢
    omega

theorem bytesToHex_length (bs : List Nat) : (bytesToHex bs).length = 2 * bs.length := by
  simpa [bytesToHex, String.length] using hexOfBytes_length bs

theorem sha256_length (msg : List Nat) : (sha256 msg).length = 32 := by
  simp [sha256, be32]

/-! Fuel irrelevance for the chunking worker and the unfolding equation of
chunkBy, for a nonzero chunk size. -/

theorem chunkByGo_fuel_irrel {α : Type} (n : Nat) (hn : n ≠ 0) :
    ∀ fuel₁ fuel₂ (l : List α), l.length ≤ fuel₁ → l.length ≤ fuel₂ →
      chunkByGo n fuel₁ l = chunkByGo n fuel₂ l := by
  intro fuel₁
  induction fuel₁ with
  | zero =>
    intro fuel₂ l h₁ _
    have : l = [] := List.eq_nil_of_length_eq_zero (Nat.le_zero.mp h₁)
    subst this
    cases fuel₂ <;> rfl
  | succ f ih =>
    intro fuel₂ l h₁ h₂
    match l with
    | [] => cases fuel₂ <;> rfl
    | a :: t =>
      match fuel₂ with
      | 0 => simp at h₂
      | g + 1 =>
        simp only [chunkByGo]
        congr 1
        apply ih
        · simp only [List.length_cons] at h₁
          simp only [List.length_drop, List.length_cons]
          omega
        · simp only [List.length_cons] at h₂
          simp only [List.length_drop, List.length_cons]
          omega

theorem chunkBy_nil {α : Type} (n : Nat) : chunkBy n ([] : List α) = [] := rfl

theorem chunkBy_cons {α : Type} (n : Nat) (hn : n ≠ 0) (a : α) (l : List α) :
    chunkBy n (a :: l) =
      (a :: l).take n :: chunkBy n ((a :: l).drop n) := by
  show chunkByGo n (l.length + 1) (a :: l) = _
  simp only [chunkByGo]
  congr 1
  apply chunkByGo_fuel_irrel n hn
  · simp only [List.length_drop, List.length_cons]
    omega
  · exact Nat.le_refl _

/-! Both backend hash loops compute the map of sha256 over the 4 MiB chunks. -/

theorem localHashLoop_eq :
    ∀ fuel (rem : List Nat) (acc : List (List Nat)), rem.length ≤ fuel →
      LocalStorageBackend.hashLoop fuel rem acc =
        acc ++ (chunkBy BLOCK_SIZE rem).map sha256 := by
  intro fuel
  induction fuel with
  | zero =>
    intro rem acc h
    have : rem = [] := List.eq_nil_of_length_eq_zero (Nat.le_zero.mp h)
    subst this
    simp [LocalStorageBackend.hashLoop, chunkBy_nil]
  | succ f ih =>
    intro rem acc h
    match rem with
    | [] => simp [LocalStorageBackend.hashLoop, chunkBy_nil]
    | a :: t =>
      have hB : BLOCK_SIZE ≠ 0 := by simp [BLOCK_SIZE]
      have hlen : ((a :: t).drop BLOCK_SIZE).length ≤ f := by
        simp only [List.length_cons] at h
        simp only [List.length_drop, List.length_cons]
        omega
      rw [LocalStorageBackend.hashLoop,
        ih ((a :: t).drop BLOCK_SIZE) (acc ++ [sha256 ((a :: t).take BLOCK_SIZE)]) hlen,
        chunkBy_cons BLOCK_SIZE hB]
      simp

theorem ftpsHashLoop_eq :
    ∀ fuel (buf : List Nat) (acc : List (List Nat)), buf.length ≤ fuel →
      FTPSStorageBackend.hashLoop fuel buf acc =
        acc ++ (chunkBy BLOCK_SIZE buf).map sha256 := by
  intro fuel
  induction fuel with
  | zero =>
    intro buf acc h
    have : buf = [] := List.eq_nil_of_length_eq_zero (Nat.le_zero.mp h)
    subst this
    simp [FTPSStorageBackend.hashLoop, chunkBy_nil]
  | succ f ih =>
    intro buf acc h
    match buf with
    | [] => simp [FTPSStorageBackend.hashLoop, chunkBy_nil]
    | a :: t =>
      have hB : BLOCK_SIZE ≠ 0 := by simp [BLOCK_SIZE]
      have hlen : ((a :: t).drop BLOCK_SIZE).length ≤ f := by
        simp only [List.length_cons] at h
        simp only [List.length_drop, List.length_cons]
        omega
      rw [FTPSStorageBackend.hashLoop,
        ih ((a :: t).drop BLOCK_SIZE) (acc ++ [sha256 ((a :: t).take BLOCK_SIZE)]) hlen,
        chunkBy_cons BLOCK_SIZE hB]
      simp

theorem local_get_file_hash_canonical (content : List Nat) :
    LocalStorageBackend.get_file_hash content = canonicalContentHash content := by
  unfold LocalStorageBackend.get_file_hash canonicalContentHash
  rw [localHashLoop_eq content.length content [] (Nat.le_refl _)]
  simp

theorem ftps_get_file_hash_canonical (content : List Nat) :
    FTPSStorageBackend.get_file_hash content = canonicalContentHash content := by
  unfold FTPSStorageBackend.get_file_hash canonicalContentHash
  rw [ftpsHashLoop_eq content.length content [] (Nat.le_refl _)]
  simp

/-- C3: for every byte content, LocalStorageBackend.get_file_hash and
FTPSStorageBackend.get_file_hash return the same digest, that digest equals
the canonical two-level scheme (SHA-256 over the concatenation of SHA-256
digests of the consecutive fixed 4 MiB chunks), and it is a 64-character
hex string. -/
theorem C3_cross_backend_hash_agreement (content : List Nat) :
    FTPSStorageBackend.get_file_hash content = LocalStorageBackend.get_file_hash content ∧
    LocalStorageBackend.get_file_hash content =
      bytesToHex (sha256 ((chunkBy BLOCK_SIZE content).map sha256).flatten) ∧
    (LocalStorageBackend.get_file_hash content).length = 64 := by
  refine ⟨?_, ?_, ?_⟩
  · rw [ftps_get_file_hash_canonical, local_get_file_hash_canonical]
  · rw [local_get_file_hash_canonical]; rfl
  · rw [local_get_file_hash_canonical]
    unfold canonicalContentHash
    rw [bytesToHex_length, sha256_length]

/-- C8: the content hash of a zero-byte file is the hex SHA-256 of the
empty byte string (zero chunks concatenate to the empty input), concretely
the well-known empty-string digest. -/
theorem C8_empty_file_hash :
    LocalStorageBackend.get_file_hash [] = sha256hex [] ∧
    sha256hex [] = "e3b0c44298fc1c149afbf4c8996fb92427ae41e4649b934ca495991b7852b855" := by
  exact ⟨rfl, by decide⟩

/-- C9 counterexample: ComparisonService.compute_hash is a single-pass
SHA-256 of the raw bytes, which on the one-byte input 0x61 differs from the
canonical two-level content hash the backends produce. -/
theorem C9_compute_hash_counterexample :
    ComparisonService.compute_hash [0x61] ≠ LocalStorageBackend.get_file_hash [0x61] ∧
    ComparisonService.compute_hash [0x61] ≠ canonicalContentHash [0x61] := by
  constructor
  · rw [local_get_file_hash_canonical]; decide
  · decide

/-! Association-list dictionary lemmas for the insertion-ordered dict model. -/

theorem dictFind_append {α : Type} :
    ∀ (m₁ m₂ : List (String × α)) (k : String),
      dictFind (m₁ ++ m₂) k =
        match dictFind m₁ k with
        | some v => some v
        | none => dictFind m₂ k := by
  intro m₁ m₂ k
  induction m₁ with
  | nil => simp [dictFind]
  | cons p t ih =>
    by_cases hpk : p.1 = k <;> simp [dictFind, hpk, ih]

theorem dictFind_cons {α : Type} (p : String × α) (m : List (String × α))
    (k : String) :
    dictFind (p :: m) k = if p.1 = k then some p.2 else dictFind m k := rfl

theorem dictFind_eq_none_iff {α : Type} :
    ∀ (m : List (String × α)) (k : String),
      dictFind m k = none ↔ k ∉ m.map Prod.fst := by
  intro m k
  induction m with
  | nil => simp [dictFind]
  | cons p t ih =>
    by_cases hpk : p.1 = k
    · subst hpk
      simp [dictFind_cons]
    · have hkp : ¬k = p.1 := fun hx => hpk hx.symm
      simp [dictFind_cons, hpk, hkp, ih]

theorem dictFind_isSome_iff_mem_keys {α : Type} (m : List (String × α))
    (k : String) :
    (dictFind m k).isSome = true ↔ k ∈ m.map Prod.fst := by
  rw [Option.isSome_iff_ne_none, Ne, dictFind_eq_none_iff]
  exact not_not

theorem dictFind_of_mem {α : Type} :
    ∀ (m : List (String × α)) (k : String) (v : α),
      (k, v) ∈ m → (m.map Prod.fst).Nodup → dictFind m k = some v := by
  intro m
  induction m with
  | nil => intro k v hm _; simp at hm
  | cons p t ih =>
    intro k v hm hnd
    rcases List.mem_cons.mp hm with hp | ht
    · subst hp; simp [dictFind]
    · have hk : k ∈ t.map Prod.fst := List.mem_map.mpr ⟨(k, v), ht, rfl⟩
      have hne : p.1 ≠ k := by
        intro hpk
        exact (List.nodup_cons.mp hnd).1 (hpk ▸ hk)
      simp [dictFind, hne]
      exact ih k v ht (List.nodup_cons.mp hnd).2

/-- The list stored under a key, with the empty default (the value
setdefault starts from). -/
def lookupG (G : List (String × List Entry)) (h : String) : List Entry :=
  (dictFind G h).getD []

theorem lookup_bump (k h : String) (e : Entry) :
    ∀ G : List (String × List Entry),
      dictFind (G.map (fun p => if p.1 = k then (p.1, p.2 ++ [e]) else p)) h =
        if h = k then (dictFind G h).map (fun v => v ++ [e]) else dictFind G h := by
  intro G
  induction G with
  | nil => by_cases hk : h = k <;> simp [dictFind, hk]
  | cons p t ih =>
    by_cases hpk : p.1 = k
    · subst hpk
      by_cases hph : p.1 = h
      · subst hph
        simp [List.map_cons, dictFind_cons]
      · have hhp : ¬h = p.1 := fun hx => hph hx.symm
        simp [List.map_cons, dictFind_cons, hph, hhp, ih]
    · by_cases hph : p.1 = h
      · subst hph
        simp [List.map_cons, dictFind_cons, hpk]
      · simp [List.map_cons, dictFind_cons, hpk, hph, ih]

theorem groupUpd_lookup (G : List (String × List Entry)) (e : Entry) (h : String) :
    dictFind (ComparisonService.groupUpd G e) h =
      if h = e.file_hash then some (lookupG G h ++ [e]) else dictFind G h := by
  unfold ComparisonService.groupUpd
  by_cases hmem : e.file_hash ∈ G.map Prod.fst
  · rw [if_pos hmem, lookup_bump]
    by_cases hhk : h = e.file_hash
    · rw [if_pos hhk, if_pos hhk]
      rcases Option.isSome_iff_exists.mp
        ((dictFind_isSome_iff_mem_keys G e.file_hash).mpr hmem) with ⟨v, hv⟩
      rw [hhk, hv]
      simp [lookupG, hhk, hv]
    · rw [if_neg hhk, if_neg hhk]
  · rw [if_neg hmem, dictFind_append]
    by_cases hhk : h = e.file_hash
    · subst hhk
      have hnone : dictFind G e.file_hash = none :=
        (dictFind_eq_none_iff G e.file_hash).mpr hmem
      rw [hnone]
      simp [dictFind_cons, dictFind, lookupG, hnone]
    · have hfh : ¬e.file_hash = h := fun hx => hhk hx.symm
      cases hfind : dictFind G h with
      | none => simp [dictFind_cons, dictFind, hhk, hfh]
      | some v => simp [hhk]

theorem group_by_hash_fold_lookup :
    ∀ (es : List Entry) (G : List (String × List Entry)) (h : String),
      dictFind (es.foldl ComparisonService.groupUpd G) h =
        if h ∈ es.map Entry.file_hash ∨ (dictFind G h).isSome = true
        then some (lookupG G h ++ es.filter (fun e => e.file_hash = h))
        else none := by
  intro es
  induction es with
  | nil =>
    intro G h
    cases hfind : dictFind G h <;> simp [hfind, lookupG]
  | cons e es ih =>
    intro G h
    rw [List.foldl_cons, ih]
    by_cases hhk : h = e.file_hash
    · have hsome : (dictFind (ComparisonService.groupUpd G e) h).isSome = true := by
        rw [groupUpd_lookup, if_pos hhk]; rfl
      rw [if_pos (Or.inr hsome), if_pos (by simp [hhk])]
      have hval : lookupG (ComparisonService.groupUpd G e) h = lookupG G h ++ [e] := by
        simp [lookupG, groupUpd_lookup, hhk]
      rw [hval]
      have : e.file_hash = h := hhk.symm
      simp [List.filter_cons, this]
    · have hval : dictFind (ComparisonService.groupUpd G e) h = dictFind G h := by
        rw [groupUpd_lookup, if_neg hhk]
      have hfh : ¬e.file_hash = h := fun hx => hhk hx.symm
      have hfil : (e :: es).filter (fun x => x.file_hash = h) =
          es.filter (fun x => x.file_hash = h) := by
        simp [List.filter_cons, hfh]
      have hmem : (h ∈ (e :: es).map Entry.file_hash ∨ (dictFind G h).isSome = true) ↔
          (h ∈ es.map Entry.file_hash ∨ (dictFind G h).isSome = true) := by
        simp only [List.map_cons, List.mem_cons]
        constructor
        · rintro (hm | hs)
          · rcases hm with hm | hm
            · exact absurd hm hhk
            · exact Or.inl hm
          · exact Or.inr hs
        · rintro (hm | hs)
          · exact Or.inl (Or.inr hm)
          · exact Or.inr hs
      have hlook : lookupG (ComparisonService.groupUpd G e) h = lookupG G h := by
        simp [lookupG, hval]
      rw [hval, hfil, hlook]
      by_cases hc : h ∈ es.map Entry.file_hash ∨ (dictFind G h).isSome = true
      · rw [if_pos hc, if_pos (hmem.mpr hc)]
      · rw [if_neg hc, if_neg (fun hx => hc (hmem.mp hx))]

theorem group_by_hash_lookup (es : List Entry) (h : String) :
    dictFind (ComparisonService.group_by_hash es) h =
      if h ∈ es.map Entry.file_hash
      then some (es.filter (fun e => e.file_hash = h))
      else none := by
  unfold ComparisonService.group_by_hash
  rw [group_by_hash_fold_lookup]
  simp [dictFind, lookupG]

theorem groupUpd_keys (G : List (String × List Entry)) (e : Entry) :
    (ComparisonService.groupUpd G e).map Prod.fst =
      if e.file_hash ∈ G.map Prod.fst then G.map Prod.fst
      else G.map Prod.fst ++ [e.file_hash] := by
  unfold ComparisonService.groupUpd
  by_cases hmem : e.file_hash ∈ G.map Prod.fst
  · rw [if_pos hmem, if_pos hmem, List.map_map]
    apply List.map_congr_left
    intro p _
    by_cases hpk : p.1 = e.file_hash <;> simp [hpk]
  · rw [if_neg hmem, if_neg hmem]
    simp

theorem group_by_hash_fold_keys_nodup :
    ∀ (es : List Entry) (G : List (String × List Entry)),
      (G.map Prod.fst).Nodup →
        ((es.foldl ComparisonService.groupUpd G).map Prod.fst).Nodup := by
  intro es
  induction es with
  | nil => intro G hG; exact hG
  | cons e es ih =>
    intro G hG
    rw [List.foldl_cons]
    apply ih
    rw [groupUpd_keys]
    by_cases hmem : e.file_hash ∈ G.map Prod.fst
    · rwa [if_pos hmem]
    · rw [if_neg hmem]
      refine hG.append (List.nodup_singleton _) ?_
      intro a ha hae
      rw [List.mem_singleton] at hae
      subst hae
      exact hmem ha

theorem group_by_hash_keys_nodup (es : List Entry) :
    ((ComparisonService.group_by_hash es).map Prod.fst).Nodup :=
  group_by_hash_fold_keys_nodup es [] (by simp)

theorem group_by_hash_mem_keys (es : List Entry) (h : String) :
    h ∈ (ComparisonService.group_by_hash es).map Prod.fst ↔
      h ∈ es.map Entry.file_hash := by
  rw [← dictFind_isSome_iff_mem_keys, group_by_hash_lookup]
  by_cases hm : h ∈ es.map Entry.file_hash <;> simp [hm]

theorem group_by_hash_mem_charac (es : List Entry) (h : String) (v : List Entry)
    (hm : (h, v) ∈ ComparisonService.group_by_hash es) :
    v = es.filter (fun e => e.file_hash = h) ∧ v ≠ [] := by
  have hfind := dictFind_of_mem _ _ _ hm (group_by_hash_keys_nodup es)
  have hkey : h ∈ es.map Entry.file_hash := by
    rw [← group_by_hash_mem_keys]
    exact List.mem_map.mpr ⟨(h, v), hm, rfl⟩
  rw [group_by_hash_lookup, if_pos hkey] at hfind
  have hv : v = es.filter (fun e => e.file_hash = h) := by
    injection hfind.symm
  refine ⟨hv, ?_⟩
  rcases List.mem_map.mp hkey with ⟨e, he, hehash⟩
  intro hnil
  have : e ∈ es.filter (fun x => x.file_hash = h) :=
    List.mem_filter.mpr ⟨he, by simp [hehash]⟩
  rw [← hv, hnil] at this
  simp at this

/-- Backup counts are the per-key max(len - 1, 0) of the groups dict. -/
theorem backup_counts_lookup (groups : List (String × List Entry)) (h : String) :
    dictFind (ComparisonService.compute_backup_counts groups) h =
      (dictFind groups h).map (fun v => max ((v.length : Int) - 1) 0) := by
  induction groups with
  | nil => rfl
  | cons p t ih =>
    by_cases hpk : p.1 = h <;>
      simp [ComparisonService.compute_backup_counts, dictFind, hpk] <;>
      simpa [ComparisonService.compute_backup_counts] using ih

/-- C5: for every grouping, compute_backup_counts maps each content hash to
max(group size - 1, 0); a group of size 1 yields 0 and a group of size 4
yields 3. -/
theorem C5_compute_backup_counts (groups : List (String × List Entry))
    (h : String) (v : List Entry) (hm : (h, v) ∈ groups)
    (hnd : (groups.map Prod.fst).Nodup) :
    dictFind (ComparisonService.compute_backup_counts groups) h =
      some (max ((v.length : Int) - 1) 0) ∧
    (v.length = 1 →
      dictFind (ComparisonService.compute_backup_counts groups) h = some 0) ∧
    (v.length = 4 →
      dictFind (ComparisonService.compute_backup_counts groups) h = some 3) := by
  have hbase : dictFind (ComparisonService.compute_backup_counts groups) h =
      some (max ((v.length : Int) - 1) 0) := by
    rw [backup_counts_lookup, dictFind_of_mem _ _ _ hm hnd]
    rfl
  refine ⟨hbase, ?_, ?_⟩
  · intro h1; rw [hbase, h1]; rfl
  · intro h4; rw [hbase, h4]; rfl

/-- C5 witness: a concrete grouping with a singleton group and a group of
four observations. -/
theorem C5_compute_backup_counts_witness :
    (("h2", [SyncService.defaultEntry, SyncService.defaultEntry,
        SyncService.defaultEntry, SyncService.defaultEntry]) ∈
      [("h1", [SyncService.defaultEntry]),
       ("h2", [SyncService.defaultEntry, SyncService.defaultEntry,
        SyncService.defaultEntry, SyncService.defaultEntry])]) ∧
    dictFind (ComparisonService.compute_backup_counts
      [("h1", [SyncService.defaultEntry]),
       ("h2", [SyncService.defaultEntry, SyncService.defaultEntry,
        SyncService.defaultEntry, SyncService.defaultEntry])]) "h2" = some 3 := by
  refine ⟨by decide, ?_⟩
  exact (C5_compute_backup_counts
    [("h1", [SyncService.defaultEntry]),
     ("h2", [SyncService.defaultEntry, SyncService.defaultEntry,
      SyncService.defaultEntry, SyncService.defaultEntry])]
    "h2"
    [SyncService.defaultEntry, SyncService.defaultEntry,
     SyncService.defaultEntry, SyncService.defaultEntry]
    (by decide) (by decide)).2.2 rfl

/-! Characterization of the reinsert loop of SyncService.run. -/

theorem mkFile_id (classify : String → String) (now : Nat)
    (backups : List (String × Int)) (file_hash : String) (items : List Entry) :
    (SyncService.mkFile classify now backups file_hash items).id =
      uuidFromHash file_hash := rfl

theorem insertGroups_spec (classify : String → String) (now : Nat)
    (backups : List (String × Int)) :
    ∀ (gs : List (String × List Entry)) (s : Snapshot),
      (gs.map (fun g => uuidFromHash g.1)).Nodup →
      (∀ g ∈ gs, uuidFromHash g.1 ∉ s.files.map File.id) →
      SyncService.insertGroups classify now backups gs s =
        ⟨s.files ++ gs.map (fun g => SyncService.mkFile classify now backups g.1 g.2),
         s.locations ++ (gs.map (fun g => g.2.map (fun it =>
           ({ file_id := uuidFromHash g.1, location := it.backend } : FileLocation)))).flatten⟩ := by
  intro gs
  induction gs with
  | nil =>
    intro s _ _
    cases s
    simp [SyncService.insertGroups]
  | cons g gs ih =>
    intro s hnd hdisj
    obtain ⟨h, items⟩ := g
    simp only [List.map_cons] at hnd
    have hnd' := (List.nodup_cons.mp hnd).2
    have hhead := (List.nodup_cons.mp hnd).1
    have hnotin : (SyncService.mkFile classify now backups h items).id ∉
        s.files.map File.id := by
      rw [mkFile_id]
      exact hdisj (h, items) (List.mem_cons_self _ _)
    rw [SyncService.insertGroups]
    simp only [FileRepository.get_or_create, if_neg hnotin]
    rw [ih _ hnd' ?_]
    · simp [mkFile_id, List.append_assoc]
    · intro g hg
      simp only [List.map_append, List.map_cons, List.map_nil, List.mem_append]
      rintro (hin | hnew)
      · exact hdisj g (List.mem_cons_of_mem _ hg) hin
      · rw [List.mem_singleton, mkFile_id] at hnew
        have hmm : uuidFromHash g.1 ∈ gs.map (fun g => uuidFromHash g.1) :=
          List.mem_map.mpr ⟨g, hg, rfl⟩
        rw [hnew] at hmm
        exact absurd hmm hhead

theorem run_snapshot (classify : String → String) (now : Nat) (es : List Entry)
    (hinj : ((ComparisonService.group_by_hash es).map
      (fun g => uuidFromHash g.1)).Nodup) :
    (SyncService.run classify now es).1 =
      ⟨(ComparisonService.group_by_hash es).map (fun g => SyncService.mkFile classify now
          (ComparisonService.compute_backup_counts (ComparisonService.group_by_hash es)) g.1 g.2),
        ((ComparisonService.group_by_hash es).map (fun g => g.2.map (fun it =>
          ({ file_id := uuidFromHash g.1, location := it.backend } : FileLocation)))).flatten⟩ := by
  show SyncService.insertGroups classify now
      (ComparisonService.compute_backup_counts (ComparisonService.group_by_hash es))
      (ComparisonService.group_by_hash es) ⟨[], []⟩ = _
  rw [insertGroups_spec _ _ _ _ _ hinj (by intro g _ hin; simp at hin)]
  simp

theorem locations_filter_count :
    ∀ gs : List (String × List Entry),
      (gs.map (fun g => uuidFromHash g.1)).Nodup →
      ∀ g ∈ gs,
        (((gs.map (fun g' => g'.2.map (fun it =>
            ({ file_id := uuidFromHash g'.1, location := it.backend } : FileLocation)))).flatten.filter
          (fun loc => loc.file_id = uuidFromHash g.1)).length) = g.2.length := by
  intro gs
  induction gs with
  | nil => intro _ g hg; simp at hg
  | cons g0 gs ih =>
    intro hnd g hg
    simp only [List.map_cons] at hnd
    have hnd' := (List.nodup_cons.mp hnd).2
    have hhead := (List.nodup_cons.mp hnd).1
    simp only [List.map_cons, List.flatten_cons, List.filter_append,
      List.length_append]
    rcases List.mem_cons.mp hg with hg0 | hgs
    · subst hg0
      have hblock : (g.2.map (fun it =>
          ({ file_id := uuidFromHash g.1, location := it.backend } : FileLocation))).filter
            (fun loc => loc.file_id = uuidFromHash g.1) =
          g.2.map (fun it =>
            ({ file_id := uuidFromHash g.1, location := it.backend } : FileLocation)) := by
        apply List.filter_eq_self.mpr
        intro loc hloc
        rcases List.mem_map.mp hloc with ⟨it, _, rfl⟩
        simp
      have hrest : ((gs.map (fun g' => g'.2.map (fun it =>
          ({ file_id := uuidFromHash g'.1, location := it.backend } : FileLocation)))).flatten.filter
            (fun loc => loc.file_id = uuidFromHash g.1)) = [] := by
        apply List.filter_eq_nil.mpr
        intro loc hloc
        rcases List.mem_flatten.mp hloc with ⟨block, hblockmem, hlocmem⟩
        rcases List.mem_map.mp hblockmem with ⟨g', hg', rfl⟩
        rcases List.mem_map.mp hlocmem with ⟨it, _, rfl⟩
        simp only [decide_eq_true_eq]
        intro heq
        have hmm : uuidFromHash g'.1 ∈ gs.map (fun g => uuidFromHash g.1) :=
          List.mem_map.mpr ⟨g', hg', rfl⟩
        rw [heq] at hmm
        exact absurd hmm hhead
      rw [hblock, hrest]
      simp
    · have hne : uuidFromHash g0.1 ≠ uuidFromHash g.1 := by
        intro heq
        have hmm : uuidFromHash g.1 ∈ gs.map (fun g => uuidFromHash g.1) :=
          List.mem_map.mpr ⟨g, hgs, rfl⟩
        rw [← heq] at hmm
        exact absurd hmm hhead
      have hblock : (g0.2.map (fun it =>
          ({ file_id := uuidFromHash g0.1, location := it.backend } : FileLocation))).filter
            (fun loc => loc.file_id = uuidFromHash g.1) = [] := by
        apply List.filter_eq_nil.mpr
        intro loc hloc
        rcases List.mem_map.mp hloc with ⟨it, _, rfl⟩
        simp only [decide_eq_true_eq]
        exact hne
      rw [hblock]
      simp only [List.length_nil, Nat.zero_add]
      exact ih hnd' g hgs

/-- C1: after a successful reconciliation run (with no uuid5 collision among
the observed hashes), the persisted snapshot has exactly one File row per
distinct observed content hash, in group order, and one FileLocation per
observation of the hash group, so every File has backup_count + 1 locations. -/
theorem C1_one_file_per_hash (classify : String → String) (now : Nat)
    (es : List Entry)
    (hinj : ((ComparisonService.group_by_hash es).map
      (fun g => uuidFromHash g.1)).Nodup) :
    ((ComparisonService.group_by_hash es).map Prod.fst).Nodup ∧
    (∀ h, h ∈ (ComparisonService.group_by_hash es).map Prod.fst ↔
      h ∈ es.map Entry.file_hash) ∧
    (SyncService.run classify now es).1.files.map File.id =
      (ComparisonService.group_by_hash es).map (fun g => uuidFromHash g.1) ∧
    (∀ g ∈ ComparisonService.group_by_hash es,
      (((SyncService.run classify now es).1.locations.filter
        (fun loc => loc.file_id = uuidFromHash g.1)).length) = g.2.length) ∧
    (∀ f ∈ (SyncService.run classify now es).1.files,
      ((((SyncService.run classify now es).1.locations.filter
        (fun loc => loc.file_id = f.id)).length : Int) = f.backup_count + 1)) := by
  refine ⟨group_by_hash_keys_nodup es, group_by_hash_mem_keys es, ?_, ?_, ?_⟩
  · rw [run_snapshot classify now es hinj]
    show ((ComparisonService.group_by_hash es).map _).map File.id = _
    rw [List.map_map]
    apply List.map_congr_left
    intro g _
    exact mkFile_id _ _ _ _ _
  · intro g hg
    rw [run_snapshot classify now es hinj]
    exact locations_filter_count _ hinj g hg
  · intro f hf
    rw [run_snapshot classify now es hinj] at hf
    rcases List.mem_map.mp hf with ⟨g, hg, rfl⟩
    obtain ⟨gh, gv⟩ := g
    rw [run_snapshot classify now es hinj, mkFile_id]
    have hlen := locations_filter_count _ hinj (gh, gv) hg
    have hne := (group_by_hash_mem_charac es gh gv hg).2
    have hpos : 1 ≤ gv.length := by
      cases hql : gv with
      | nil => exact absurd hql hne
      | cons x xs => simp [hql]
    have hbc : (SyncService.mkFile classify now
        (ComparisonService.compute_backup_counts (ComparisonService.group_by_hash es)) gh gv).backup_count =
        max ((gv.length : Int) - 1) 0 := by
      show (dictFind (ComparisonService.compute_backup_counts
        (ComparisonService.group_by_hash es)) gh).getD 0 = _
      rw [backup_counts_lookup, dictFind_of_mem _ _ _ hg (group_by_hash_keys_nodup es)]
      rfl
    rw [hbc]
    simp only at hlen
    rw [hlen]
    have hmax : max ((gv.length : Int) - 1) 0 = (gv.length : Int) - 1 := by
      apply max_eq_left
      omega
    rw [hmax]
    omega

/-- C1 witness: three observations, two sharing a hash, with the uuid5
injectivity side condition checked concretely. -/
theorem C1_one_file_per_hash_witness :
    ((ComparisonService.group_by_hash
      [⟨"h1", "a", "a", none, 0, "LocalStorageBackend"⟩,
       ⟨"h1", "b", "b", none, 0, "FTPSStorageBackend"⟩,
       ⟨"h2", "c", "c", none, 0, "LocalStorageBackend"⟩]).map
        (fun g => uuidFromHash g.1)).Nodup ∧
    (SyncService.run (fun _ => "INSENSITIVE") 0
      [⟨"h1", "a", "a", none, 0, "LocalStorageBackend"⟩,
       ⟨"h1", "b", "b", none, 0, "FTPSStorageBackend"⟩,
       ⟨"h2", "c", "c", none, 0, "LocalStorageBackend"⟩]).1.files.map File.id =
      (ComparisonService.group_by_hash
        [⟨"h1", "a", "a", none, 0, "LocalStorageBackend"⟩,
         ⟨"h1", "b", "b", none, 0, "FTPSStorageBackend"⟩,
         ⟨"h2", "c", "c", none, 0, "LocalStorageBackend"⟩]).map
        (fun g => uuidFromHash g.1) := by
  have hinj : ((ComparisonService.group_by_hash
      [⟨"h1", "a", "a", none, 0, "LocalStorageBackend"⟩,
       ⟨"h1", "b", "b", none, 0, "FTPSStorageBackend"⟩,
       ⟨"h2", "c", "c", none, 0, "LocalStorageBackend"⟩]).map
        (fun g => uuidFromHash g.1)).Nodup := by decide
  exact ⟨hinj, (C1_one_file_per_hash (fun _ => "INSENSITIVE") 0 _ hinj).2.2.1⟩

/-! Lemmas for stable ids without the collision side condition. -/

theorem insertGroups_files_mono (classify : String → String) (now : Nat)
    (backups : List (String × Int)) :
    ∀ (gs : List (String × List Entry)) (s : Snapshot) (f : File),
      f ∈ s.files → f ∈ (SyncService.insertGroups classify now backups gs s).files := by
  intro gs
  induction gs with
  | nil => intro s f hf; exact hf
  | cons g gs ih =>
    intro s f hf
    obtain ⟨h, items⟩ := g
    rw [SyncService.insertGroups]
    apply ih
    simp only [FileRepository.get_or_create]
    split
    · exact hf
    · exact List.mem_append.mpr (Or.inl hf)

theorem insertGroups_files_sub (classify : String → String) (now : Nat)
    (backups : List (String × Int)) :
    ∀ (gs : List (String × List Entry)) (s : Snapshot),
      ∀ f ∈ (SyncService.insertGroups classify now backups gs s).files,
        f ∈ s.files ∨ ∃ g ∈ gs, f.id = uuidFromHash g.1 := by
  intro gs
  induction gs with
  | nil => intro s f hf; exact Or.inl hf
  | cons g gs ih =>
    intro s f hf
    obtain ⟨h, items⟩ := g
    rw [SyncService.insertGroups] at hf
    rcases ih _ f hf with hin | ⟨g', hg', hid⟩
    · simp only [FileRepository.get_or_create] at hin
      split at hin
      · exact Or.inl hin
      · rcases List.mem_append.mp hin with hin | hnew
        · exact Or.inl hin
        · rw [List.mem_singleton] at hnew
          subst hnew
          exact Or.inr ⟨(h, items), List.mem_cons_self _ _, rfl⟩
    · exact Or.inr ⟨g', List.mem_cons_of_mem _ hg', hid⟩

theorem insertGroups_exists (classify : String → String) (now : Nat)
    (backups : List (String × Int)) :
    ∀ (gs : List (String × List Entry)) (s : Snapshot),
      ∀ g ∈ gs,
        ∃ f ∈ (SyncService.insertGroups classify now backups gs s).files,
          f.id = uuidFromHash g.1 := by
  intro gs
  induction gs with
  | nil => intro s g hg; simp at hg
  | cons g0 gs ih =>
    intro s g hg
    obtain ⟨h, items⟩ := g0
    rw [SyncService.insertGroups]
    rcases List.mem_cons.mp hg with hg0 | hgs
    · subst hg0
      by_cases hpres : (SyncService.mkFile classify now backups h items).id ∈
          s.files.map File.id
      · rcases List.mem_map.mp hpres with ⟨x, hx, hxid⟩
        refine ⟨x, insertGroups_files_mono classify now backups gs _ x ?_, ?_⟩
        · simp only [FileRepository.get_or_create, if_pos hpres]
          exact hx
        · rw [hxid, mkFile_id]
      · refine ⟨SyncService.mkFile classify now backups h items,
          insertGroups_files_mono classify now backups gs _ _ ?_, mkFile_id _ _ _ _ _⟩
        simp only [FileRepository.get_or_create]
        rw [if_neg hpres]
        exact List.mem_append.mpr (Or.inr (List.mem_singleton.mpr rfl))
    · exact ih _ g hgs

/-- C4: LogicalFile ids are deterministic uuid5 values of the content hash:
every persisted id is the uuid5 of some observed hash, every observed hash
yields a file with its uuid5 id, and the resulting snapshot is a function
of the hash groups alone, so identical observations produce identical ids
and backup counts across runs. -/
theorem C4_stable_ids (classify : String → String) (now : Nat) (es : List Entry) :
    (∀ f ∈ (SyncService.run classify now es).1.files,
      ∃ g ∈ ComparisonService.group_by_hash es, f.id = uuidFromHash g.1) ∧
    (∀ g ∈ ComparisonService.group_by_hash es,
      ∃ f ∈ (SyncService.run classify now es).1.files, f.id = uuidFromHash g.1) ∧
    (∀ es' : List Entry,
      ComparisonService.group_by_hash es' = ComparisonService.group_by_hash es →
      (SyncService.run classify now es').1 = (SyncService.run classify now es).1) := by
  refine ⟨?_, ?_, ?_⟩
  · intro f hf
    have := insertGroups_files_sub classify now _ _ _ f hf
    rcases this with hin | hex
    · simp at hin
    · exact hex
  · intro g hg
    exact insertGroups_exists classify now _ _ _ g hg
  · intro es' hgr
    show SyncService.insertGroups _ _ _ _ _ = SyncService.insertGroups _ _ _ _ _
    rw [hgr]

/-- C4 witness: a concrete run in which the hash group "h1" produces a file
with its uuid5 id, and a rerun over the same observations produces the
identical snapshot. -/
theorem C4_stable_ids_witness :
    (∃ f ∈ (SyncService.run (fun _ => "INSENSITIVE") 0
      [⟨"h1", "a", "a", none, 0, "LocalStorageBackend"⟩]).1.files,
      f.id = uuidFromHash "h1") ∧
    (SyncService.run (fun _ => "INSENSITIVE") 0
      [⟨"h1", "a", "a", none, 0, "LocalStorageBackend"⟩]).1 =
    (SyncService.run (fun _ => "INSENSITIVE") 0
      [⟨"h1", "a", "a", none, 0, "LocalStorageBackend"⟩]).1 := by
  have hC4 := C4_stable_ids (fun _ => "INSENSITIVE") 0
    [⟨"h1", "a", "a", none, 0, "LocalStorageBackend"⟩]
  refine ⟨?_, hC4.2.2 _ rfl⟩
  exact hC4.2.1 ("h1", [⟨"h1", "a", "a", none, 0, "LocalStorageBackend"⟩]) (by decide)

/-- An observation of a given byte content whose hash was computed by the
local backend hasher; used to state same-content grouping claims. -/
def observationOf (content : List Nat) (path nm : String) (size : Option Nat)
    (t : Nat) (backend : String) : Entry :=
  ⟨LocalStorageBackend.get_file_hash content, path, nm, size, t, backend⟩

/-- C10: two byte-identical copies observed on the same backend collapse to
one LogicalFile with backup count 1 and two FileLocation rows that both
carry that backend's name; same-backend duplicates are not deduplicated. -/
theorem C10_same_backend_duplicates (classify : String → String) (now : Nat)
    (content : List Nat) (p1 p2 n1 n2 : String) (sz1 sz2 : Option Nat)
    (t1 t2 : Nat) (b : String) :
    (SyncService.run classify now
      [observationOf content p1 n1 sz1 t1 b,
       observationOf content p2 n2 sz2 t2 b]).1.files.map File.id =
      [uuidFromHash (LocalStorageBackend.get_file_hash content)] ∧
    (SyncService.run classify now
      [observationOf content p1 n1 sz1 t1 b,
       observationOf content p2 n2 sz2 t2 b]).1.files.map File.backup_count = [1] ∧
    (SyncService.run classify now
      [observationOf content p1 n1 sz1 t1 b,
       observationOf content p2 n2 sz2 t2 b]).1.locations =
      [⟨uuidFromHash (LocalStorageBackend.get_file_hash content), b⟩,
       ⟨uuidFromHash (LocalStorageBackend.get_file_hash content), b⟩] ∧
    (SyncService.run classify now
      [observationOf content p1 n1 sz1 t1 b,
       observationOf content p2 n2 sz2 t2 b]).2 = 2 := by
  have hgr : ComparisonService.group_by_hash
      [observationOf content p1 n1 sz1 t1 b,
       observationOf content p2 n2 sz2 t2 b] =
      [(LocalStorageBackend.get_file_hash content,
        [observationOf content p1 n1 sz1 t1 b,
         observationOf content p2 n2 sz2 t2 b])] := by
    simp [ComparisonService.group_by_hash, ComparisonService.groupUpd, observationOf]
  refine ⟨?_, ?_, ?_, rfl⟩
  · show (SyncService.insertGroups _ _ _ _ _).files.map File.id = _
    rw [hgr]
    simp [SyncService.insertGroups, FileRepository.get_or_create, mkFile_id]
  · show (SyncService.insertGroups _ _ _ _ _).files.map File.backup_count = _
    rw [hgr]
    simp [SyncService.insertGroups, FileRepository.get_or_create,
      SyncService.mkFile, SyncService.mkFileS,
      ComparisonService.compute_backup_counts, dictFind]
  · show (SyncService.insertGroups _ _ _ _ _).locations = _
    rw [hgr]
    simp [SyncService.insertGroups, FileRepository.get_or_create, mkFile_id, observationOf]

/-- C9 amended: ComparisonService.compute_hash is the single-pass
hashlib.sha256 hex digest of the raw bytes; it coincides with the canonical
two-level scheme (and hence with the backend implementations) only on the
empty input. -/
theorem C9_compute_hash_amended (data_bytes : List Nat) :
    ComparisonService.compute_hash data_bytes = bytesToHex (sha256 data_bytes) ∧
    ComparisonService.compute_hash [] = canonicalContentHash [] ∧
    ComparisonService.compute_hash [] = LocalStorageBackend.get_file_hash [] := by
  exact ⟨rfl, rfl, rfl⟩

/-! Visibility of committed snapshots during a run (claim C2). -/

/-- C2 counterexample: with a classifier that raises, a run over one
observation against a non-empty store fails AFTER both delete-alls have
committed: the trace of reader-visible states ends at the empty store, so
the deletes were committed with zero groups reinserted and the old snapshot
is gone, contradicting the claimed atomicity. -/
theorem C2_atomicity_counterexample :
    SyncService.runSteps (fun _ => Except.error ()) true 0
        ⟨[⟨"oldid", "old", "old", none, 0, "INSENSITIVE", 0, 0⟩],
         [⟨"oldid", "LocalStorageBackend"⟩]⟩
        [⟨"h", "p", "p", some 0, 0, "LocalStorageBackend"⟩] =
      ([⟨[⟨"oldid", "old", "old", none, 0, "INSENSITIVE", 0, 0⟩],
          [⟨"oldid", "LocalStorageBackend"⟩]⟩,
        ⟨[], [⟨"oldid", "LocalStorageBackend"⟩]⟩,
        ⟨[], []⟩], Except.error ()) ∧
    (⟨[], []⟩ : Snapshot) ≠
      ⟨[⟨"oldid", "old", "old", none, 0, "INSENSITIVE", 0, 0⟩],
       [⟨"oldid", "LocalStorageBackend"⟩]⟩ := by
  exact ⟨rfl, by decide⟩

/-- C2 amended: the run is not atomic (each delete_all commits at once),
but reader-visible states are limited: the old snapshot, the old snapshot
with the files table already cleared, the empty store, or the complete new
snapshot, which becomes visible only at the final commit; a failure of
classification or of the final commit fails the run and leaves the
committed store empty. -/
theorem C2_visible_states (classify : String → Except Unit String)
    (commitOk : Bool) (now : Nat) (init : Snapshot) (entries : List Entry)
    (s : Snapshot)
    (hs : s ∈ (SyncService.runSteps classify commitOk now init entries).1) :
    (s = init ∨ s = ⟨[], init.locations⟩ ∨ s = ⟨[], []⟩ ∨
      (SyncService.insertGroupsE classify now
        (ComparisonService.compute_backup_counts (ComparisonService.group_by_hash entries))
        (ComparisonService.group_by_hash entries) ⟨[], []⟩ = Except.ok s ∧
       (SyncService.runSteps classify commitOk now init entries).2 =
         Except.ok entries.length)) ∧
    ((SyncService.runSteps classify commitOk now init entries).2 = Except.error () →
      (SyncService.runSteps classify commitOk now init entries).1.getLast? =
        some ⟨[], []⟩) ∧
    (∀ n, (SyncService.runSteps classify commitOk now init entries).2 = Except.ok n →
      n = entries.length) := by
  cases hins : SyncService.insertGroupsE classify now
      (ComparisonService.compute_backup_counts (ComparisonService.group_by_hash entries))
      (ComparisonService.group_by_hash entries) ⟨[], []⟩ with
  | error e =>
    cases e
    have hrun : SyncService.runSteps classify commitOk now init entries =
        ([init, ⟨[], init.locations⟩, ⟨[], []⟩], Except.error ()) := by
      simp [SyncService.runSteps, hins]
    rw [hrun] at hs
    refine ⟨?_, fun _ => by rw [hrun]; rfl, fun n hn => ?_⟩
    · simp only [List.mem_cons, List.not_mem_nil, or_false] at hs
      rcases hs with h | h | h
      · exact Or.inl h
      · exact Or.inr (Or.inl h)
      · exact Or.inr (Or.inr (Or.inl h))
    · rw [hrun] at hn
      exact absurd hn (by simp)
  | ok snew =>
    cases commitOk with
    | true =>
      have hrun : SyncService.runSteps classify true now init entries =
          ([init, ⟨[], init.locations⟩, ⟨[], []⟩, snew], Except.ok entries.length) := by
        simp [SyncService.runSteps, hins]
      rw [hrun] at hs
      refine ⟨?_, fun herr => ?_, fun n hn => ?_⟩
      · simp only [List.mem_cons, List.not_mem_nil, or_false] at hs
        rcases hs with h | h | h | h
        · exact Or.inl h
        · exact Or.inr (Or.inl h)
        · exact Or.inr (Or.inr (Or.inl h))
        · subst h
          exact Or.inr (Or.inr (Or.inr ⟨rfl, by rw [hrun]⟩))
      · rw [hrun] at herr
        exact absurd herr (by simp)
      · have h' : entries.length = n := by
          rw [hrun] at hn
          simpa using hn
        exact h'.symm
    | false =>
      have hrun : SyncService.runSteps classify false now init entries =
          ([init, ⟨[], init.locations⟩, ⟨[], []⟩], Except.error ()) := by
        simp [SyncService.runSteps, hins]
      rw [hrun] at hs
      refine ⟨?_, fun _ => by rw [hrun]; rfl, fun n hn => ?_⟩
      · simp only [List.mem_cons, List.not_mem_nil, or_false] at hs
        rcases hs with h | h | h
        · exact Or.inl h
        · exact Or.inr (Or.inl h)
        · exact Or.inr (Or.inr (Or.inl h))
      · rw [hrun] at hn
        exact absurd hn (by simp)

/-- C2 amended witness: a reader observing the intermediate state with the
files table cleared but the old locations still present falls under the
allowed list. -/
theorem C2_visible_states_witness :
    ((⟨[], [⟨"oldid", "LocalStorageBackend"⟩]⟩ : Snapshot) ∈
      (SyncService.runSteps (fun _ => Except.ok "INSENSITIVE") true 0
        ⟨[⟨"oldid", "old", "old", none, 0, "INSENSITIVE", 0, 0⟩],
         [⟨"oldid", "LocalStorageBackend"⟩]⟩ []).1) ∧
    ((⟨[], [⟨"oldid", "LocalStorageBackend"⟩]⟩ : Snapshot) =
        ⟨[⟨"oldid", "old", "old", none, 0, "INSENSITIVE", 0, 0⟩],
         [⟨"oldid", "LocalStorageBackend"⟩]⟩ ∨
      (⟨[], [⟨"oldid", "LocalStorageBackend"⟩]⟩ : Snapshot) =
        ⟨[], [⟨"oldid", "LocalStorageBackend"⟩]⟩ ∨
      (⟨[], [⟨"oldid", "LocalStorageBackend"⟩]⟩ : Snapshot) = ⟨[], []⟩ ∨
      (SyncService.insertGroupsE (fun _ => Except.ok "INSENSITIVE") 0
        (ComparisonService.compute_backup_counts (ComparisonService.group_by_hash []))
        (ComparisonService.group_by_hash []) ⟨[], []⟩ =
          Except.ok ⟨[], [⟨"oldid", "LocalStorageBackend"⟩]⟩ ∧
       (SyncService.runSteps (fun _ => Except.ok "INSENSITIVE") true 0
        ⟨[⟨"oldid", "old", "old", none, 0, "INSENSITIVE", 0, 0⟩],
         [⟨"oldid", "LocalStorageBackend"⟩]⟩ []).2 = Except.ok 0)) := by
  refine ⟨by decide, ?_⟩
  exact (C2_visible_states (fun _ => Except.ok "INSENSITIVE") true 0
    ⟨[⟨"oldid", "old", "old", none, 0, "INSENSITIVE", 0, 0⟩],
     [⟨"oldid", "LocalStorageBackend"⟩]⟩ []
    ⟨[], [⟨"oldid", "LocalStorageBackend"⟩]⟩ (by decide)).1

/-! Unreachable backends degrade to zero observations (claim C6). -/

/-- C6: a backend whose listing raises contributes zero observations, the
whole collection over the backend list equals the collection without it,
and a successful full run returns the snapshot and count computed from
exactly the collected (reachable) observations. -/
theorem C6_unreachable_backend_soft_fail (classify : String → String)
    (now : Nat) (base_folder : String) (bs1 bs2 : List Backend) (b : Backend)
    (hfail : b.list_files (SyncService.listPath base_folder b) = Except.error ()) :
    SyncService.collectBackend now base_folder b = Except.ok [] ∧
    SyncService.collect_entries now base_folder (bs1 ++ b :: bs2) =
      SyncService.collect_entries now base_folder (bs1 ++ bs2) ∧
    (∀ es : List Entry,
      SyncService.collect_entries now base_folder (bs1 ++ bs2) = Except.ok es →
      SyncService.runFull classify now base_folder (bs1 ++ b :: bs2) =
        Except.ok ((SyncService.run classify now es).1, es.length)) := by
  have h1 : SyncService.collectBackend now base_folder b = Except.ok [] := by
    unfold SyncService.collectBackend
    rw [hfail]
    rfl
  have h2 : SyncService.collect_entries now base_folder (bs1 ++ b :: bs2) =
      SyncService.collect_entries now base_folder (bs1 ++ bs2) := by
    induction bs1 with
    | nil =>
      simp only [List.nil_append]
      rw [SyncService.collect_entries, h1]
      cases hrest : SyncService.collect_entries now base_folder bs2 <;> simp [hrest]
    | cons b1 bs1 ih =>
      simp only [List.cons_append, SyncService.collect_entries, List.append_eq]
      rw [ih]
  refine ⟨h1, h2, ?_⟩
  intro es hes
  unfold SyncService.runFull
  rw [h2, hes]
  rfl

/-- C6 witness: a backend whose listing raises next to a healthy backend. -/
theorem C6_unreachable_backend_soft_fail_witness :
    SyncService.collectBackend 0 "HCS"
      ⟨"LocalStorageBackend", fun _ => Except.error (),
       fun _ => Except.ok ⟨none, none⟩, fun _ => Except.error ()⟩ = Except.ok [] ∧
    SyncService.collect_entries 0 "HCS"
      [⟨"LocalStorageBackend", fun _ => Except.error (),
        fun _ => Except.ok ⟨none, none⟩, fun _ => Except.error ()⟩,
       ⟨"FTPSStorageBackend", fun _ => Except.ok ["d/f"],
        fun _ => Except.ok ⟨some (some 5), some (some 7)⟩,
        fun _ => Except.ok "hX"⟩] =
      SyncService.collect_entries 0 "HCS"
        [⟨"FTPSStorageBackend", fun _ => Except.ok ["d/f"],
          fun _ => Except.ok ⟨some (some 5), some (some 7)⟩,
          fun _ => Except.ok "hX"⟩] := by
  have h := C6_unreachable_backend_soft_fail (fun _ => "INSENSITIVE") 0 "HCS" []
    [⟨"FTPSStorageBackend", fun _ => Except.ok ["d/f"],
      fun _ => Except.ok ⟨some (some 5), some (some 7)⟩,
      fun _ => Except.ok "hX"⟩]
    ⟨"LocalStorageBackend", fun _ => Except.error (),
     fun _ => Except.ok ⟨none, none⟩, fun _ => Except.error ()⟩ rfl
  exact ⟨h.1, h.2.1⟩

/-! Per-file fallback behavior during collection (claim C7). -/

/-- The entry produced for a path whose metadata call returns a dict. -/
theorem collectPath_ok (now : Nat) (b : Backend) (p : String) (m : MetaDict)
    (hm : b.get_file_metadata p = Except.ok m) :
    SyncService.collectPath now b p = Except.ok
      ⟨(match b.get_file_hash p with
        | .ok h => h
        | .error _ => sha256hex (utf8Bytes p)),
       p, basename p, m.size.getD (some 0),
       (match m.modified with
        | some (some t) => t
        | _ => now), b.name⟩ := by
  unfold SyncService.collectPath
  rw [hm]

/-- C7 counterexample: a backend with one listed file whose metadata call
raises makes the whole run abort, rather than including the file with
defaults: the per-path loop only guards the listing and the hash call. -/
theorem C7_metadata_abort_counterexample :
    SyncService.runFull (fun _ => "INSENSITIVE") 0 "HCS"
      [⟨"LocalStorageBackend", fun _ => Except.ok ["HCS/f.txt"],
        fun _ => Except.error (), fun _ => Except.ok "deadbeef"⟩] =
      Except.error () := rfl

/-- C7 amended: a failing hash call falls back to the SHA-256 of the path
string and the file is kept; a metadata call that returns no fields yields
size 0 and last-modified now and the file is kept; but a metadata call that
raises aborts the collection of every path of the run. -/
theorem C7_per_file_fallbacks (now : Nat) (b : Backend) (p : String) :
    (∀ m : MetaDict, b.get_file_metadata p = Except.ok m →
      b.get_file_hash p = Except.error () →
      ∃ e : Entry, SyncService.collectPath now b p = Except.ok e ∧
        e.file_hash = sha256hex (utf8Bytes p)) ∧
    (∀ m : MetaDict, b.get_file_metadata p = Except.ok m → m.size = none →
      m.modified = none →
      ∃ e : Entry, SyncService.collectPath now b p = Except.ok e ∧
        e.size = some 0 ∧ e.last_modified = now) ∧
    (b.get_file_metadata p = Except.error () →
      SyncService.collectPath now b p = Except.error ()) ∧
    (∀ paths : List String, p ∈ paths → b.get_file_metadata p = Except.error () →
      SyncService.collectPaths now b paths = Except.error ()) := by
  refine ⟨?_, ?_, ?_, ?_⟩
  · intro m hm hh
    refine ⟨_, collectPath_ok now b p m hm, ?_⟩
    simp only [hh]
  · intro m hm hsize hmod
    refine ⟨_, collectPath_ok now b p m hm, ?_, ?_⟩
    · simp only [hsize, Option.getD_none]
    · simp only [hmod]
  · intro herr
    unfold SyncService.collectPath
    rw [herr]
  · intro paths
    induction paths with
    | nil => intro hmem; simp at hmem
    | cons q qs ih =>
      intro hmem herr
      rcases List.mem_cons.mp hmem with hq | hqs
      · subst hq
        have hcp : SyncService.collectPath now b p = Except.error () := by
          unfold SyncService.collectPath
          rw [herr]
        rw [SyncService.collectPaths, hcp]
      · rw [SyncService.collectPaths]
        cases hq : SyncService.collectPath now b q with
        | error e => cases e; rfl
        | ok e => rw [ih hqs herr]

/-- C7 amended witness: a backend whose hash call always raises and whose
metadata is empty for path x but raises for path bad. -/
theorem C7_per_file_fallbacks_witness :
    (∃ e : Entry, SyncService.collectPath 0
      ⟨"FTPSStorageBackend", fun _ => Except.ok ["x", "bad"],
       fun q => if q = "bad" then Except.error () else Except.ok ⟨none, none⟩,
       fun _ => Except.error ()⟩ "x" = Except.ok e ∧
      e.file_hash = sha256hex (utf8Bytes "x")) ∧
    (∃ e : Entry, SyncService.collectPath 0
      ⟨"FTPSStorageBackend", fun _ => Except.ok ["x", "bad"],
       fun q => if q = "bad" then Except.error () else Except.ok ⟨none, none⟩,
       fun _ => Except.error ()⟩ "x" = Except.ok e ∧
      e.size = some 0 ∧ e.last_modified = 0) ∧
    SyncService.collectPaths 0
      ⟨"FTPSStorageBackend", fun _ => Except.ok ["x", "bad"],
       fun q => if q = "bad" then Except.error () else Except.ok ⟨none, none⟩,
       fun _ => Except.error ()⟩ ["x", "bad"] = Except.error () := by
  have hx := C7_per_file_fallbacks 0
    ⟨"FTPSStorageBackend", fun _ => Except.ok ["x", "bad"],
     fun q => if q = "bad" then Except.error () else Except.ok ⟨none, none⟩,
     fun _ => Except.error ()⟩ "x"
  have hbad := C7_per_file_fallbacks 0
    ⟨"FTPSStorageBackend", fun _ => Except.ok ["x", "bad"],
     fun q => if q = "bad" then Except.error () else Except.ok ⟨none, none⟩,
     fun _ => Except.error ()⟩ "bad"
  exact ⟨hx.1 ⟨none, none⟩ rfl rfl, hx.2.1 ⟨none, none⟩ rfl rfl rfl,
    hbad.2.2.2 ["x", "bad"] (by decide) rfl⟩


end HCS
